import Mathlib

/-!
# Verification of the `aif-rag-api` document-processing core

Shallow embedding of `app/services/document_processing` (the text chunker
`processors/text.py`, the orchestrator `document_service.py`, and the
exception hierarchy `exceptions.py`).  Strings are modelled as `List Char`;
Python `None` as `Option`; raised exceptions as `Except` values.
-/

namespace AifRag

/-- The set of characters Python treats as whitespace (`str.strip`,
`str.split()` and the regex class `\s` on `str` patterns agree on this set). -/
def isPySpace (c : Char) : Bool :=
  c = ' ' || c = '\t' || c = '\n' || c = '\x0b' || c = '\x0c' || c = '\r' ||
  c = '\x1c' || c = '\x1d' || c = '\x1e' || c = '\x1f' ||
  c = '\x85' || c = '\u00a0' || c = '\u1680' ||
  ('\u2000' ≤ c && c ≤ '\u200a') ||
  c = '\u2028' || c = '\u2029' || c = '\u202f' || c = '\u205f' || c = '\u3000'

/-- The character class `[\u200B-\u200D\uFEFF]` of the second default clean
pattern in `TextProcessor.__init__` (zero-width spaces). -/
def isZeroWidth (c : Char) : Bool :=
  ('\u200b' ≤ c && c ≤ '\u200d') || c = '\ufeff'

/-- Python `str.strip()`: remove leading and trailing whitespace. -/
def pyStrip (l : List Char) : List Char :=
  (l.dropWhile isPySpace).rdropWhile isPySpace

/-- `re.sub(r'\s+', ' ', l)`: each maximal run of whitespace characters is
replaced by a single space (all whitespace characters of a run but the last
are dropped; the last one becomes `' '`). -/
def collapseWs : List Char → List Char
  | [] => []
  | [c] => if isPySpace c then [' '] else [c]
  | c :: d :: cs =>
    if isPySpace c then
      if isPySpace d then collapseWs (d :: cs)
      else ' ' :: collapseWs (d :: cs)
    else c :: collapseWs (d :: cs)

/-- `re.sub(r'[\u200B-\u200D\uFEFF]', ' ', l)`: each zero-width character is
replaced by a single space (the replacement string in `clean_text` is `' '`
for every pattern). -/
def replaceZeroWidth (l : List Char) : List Char :=
  l.map (fun c => if isZeroWidth c then ' ' else c)

/-- `TextProcessor.clean_text` on a non-`None` string, with the default
patterns of `TextProcessor.__init__`: apply `\s+ -> ' '`, then
`[\u200B-\u200D\uFEFF] -> ' '`, then `str.strip()`. -/
def clean_text (l : List Char) : List Char :=
  pyStrip (replaceZeroWidth (collapseWs l))

/-- Index of the last occurrence of `ch` in `l` (`-1` if absent). -/
def lastIdx (ch : Char) : List Char → Int
  | [] => -1
  | c :: cs =>
    let r := lastIdx ch cs
    if 0 ≤ r then r + 1 else if c = ch then 0 else -1

/-- Python slice `text[s:e]` (for `0 ≤ s ≤ e`). -/
def pySlice (text : List Char) (s e : Nat) : List Char :=
  (text.drop s).take (e - s)

/-- Python `text.rfind(ch, s, e)`: the largest index `i` with
`s ≤ i < min e (len text)` and `text[i] = ch`, else `-1`. -/
def rfind (text : List Char) (ch : Char) (s e : Nat) : Int :=
  let r := lastIdx ch (pySlice text s e)
  if r < 0 then -1 else (s : Int) + r

/-- A chunk produced by `TextProcessor.split_text`: the dictionary
`{"text": ..., "start": ..., "end": ..., "index": ...}`. -/
structure Chunk where
  text : List Char
  start : Nat
  «end» : Nat
  index : Nat
deriving DecidableEq, Repr

/-- The end position computed by one iteration of the `split_text` loop:
tentative `end = min(start + chunk_size, len(text))`, then, when not at the
tail, moved to one past the later of the last space and the last newline in
`[start, end)` when either exists. -/
def computeEnd (chunk_size : Nat) (text : List Char) (start : Nat) : Nat :=
  let e := min (start + chunk_size) text.length
  if e < text.length then
    let last_space := rfind text ' ' start e
    let last_newline := rfind text '\n' start e
    if last_space > -1 ∨ last_newline > -1 then
      (max last_space last_newline).toNat + 1
    else e
  else e

/-- The `while start < len(text)` loop of `TextProcessor.split_text`:
emit the stripped slice `[start, end)` when non-empty (with the untrimmed
offsets and the next index), stop when `end` reaches the length, otherwise
advance `start = max(start + 1, end - chunk_overlap)`. -/
def splitLoop (chunk_size chunk_overlap : Nat) (text : List Char)
    (start index : Nat) : List Chunk :=
  if start < text.length then
    let e := computeEnd chunk_size text start
    let chunk_text := pyStrip (pySlice text start e)
    let emitted : List Chunk :=
      if chunk_text.isEmpty then [] else [⟨chunk_text, start, e, index⟩]
    if e = text.length then emitted
    else
      emitted ++ splitLoop chunk_size chunk_overlap text
        (max (start + 1) (e - chunk_overlap))
        (if chunk_text.isEmpty then index else index + 1)
  else []
termination_by text.length - start
decreasing_by
  have : start + 1 ≤ max (start + 1) (e - chunk_overlap) :=
    Nat.le_max_left _ _
  omega

/-- `TextProcessor.split_text` on a non-`None` string: strip the text, handle
the empty and the small cases, otherwise run the chunking loop. -/
def split_text (chunk_size chunk_overlap : Nat) (l : List Char) : List Chunk :=
  let text := pyStrip l
  if text.isEmpty then [⟨[], 0, 0, 0⟩]
  else if text.length ≤ chunk_size then [⟨text, 0, text.length, 0⟩]
  else splitLoop chunk_size chunk_overlap text 0 0

/-- Python `text.split('\n')`. -/
def splitOnNewline (l : List Char) : List (List Char) :=
  l.splitOn '\n'

/-- Helper for `pySplitWs`: `acc` is the current word, accumulated in
reverse. -/
def pySplitWsAux : List Char → List Char → List (List Char)
  | acc, [] => if acc.isEmpty then [] else [acc.reverse]
  | acc, c :: cs =>
    if isPySpace c then
      if acc.isEmpty then pySplitWsAux [] cs
      else acc.reverse :: pySplitWsAux [] cs
    else pySplitWsAux (c :: acc) cs

/-- Python `text.split()` (no separator): maximal runs of non-whitespace,
empty pieces dropped. -/
def pySplitWs (l : List Char) : List (List Char) :=
  pySplitWsAux [] l

/-- The metadata dictionary returned by `TextProcessor.extract_metadata`. -/
structure Metadata where
  length : Nat
  word_count : Nat
  line_count : Nat
  has_paragraphs : Bool
deriving DecidableEq, Repr

/-- `TextProcessor.extract_metadata` on a non-`None` string. -/
def extract_metadata (l : List Char) : Metadata :=
  if l.isEmpty then ⟨0, 0, 1, false⟩
  else
    let lines := splitOnNewline l
    let words := pySplitWs l
    ⟨l.length, words.length, lines.length,
      decide (lines.length > 1) && lines.any (fun line => (pyStrip line).isEmpty)⟩

/-- The exception classes of `exceptions.py`, plus the Python builtin
`Exception` they derive from. -/
inductive ExcClass where
  | exception
  | documentProcessingError
  | textProcessingError
  | chunkingError
  | metadataExtractionError
  | validationError
  | processingTimeoutError
deriving DecidableEq, Repr

/-- The direct base class of each class, as declared in `exceptions.py`. -/
def superclass : ExcClass → Option ExcClass
  | .exception => none
  | .documentProcessingError => some .exception
  | .textProcessingError => some .documentProcessingError
  | .chunkingError => some .documentProcessingError
  | .metadataExtractionError => some .documentProcessingError
  | .validationError => some .documentProcessingError
  | .processingTimeoutError => some .documentProcessingError

instance : Fintype ExcClass :=
  ⟨⟨{.exception, .documentProcessingError, .textProcessingError,
     .chunkingError, .metadataExtractionError, .validationError,
     .processingTimeoutError}, by decide⟩, by intro c; cases c <;> decide⟩

/-- Follow `superclass` links for at most `n` steps, collecting the classes
visited. -/
def classChainAux : Nat → ExcClass → List ExcClass
  | 0, c => [c]
  | n + 1, c =>
    match superclass c with
    | none => [c]
    | some p => c :: classChainAux n p

/-- The method-resolution chain of a class: the class followed by all its
superclasses, obtained by following `superclass` links (in a hierarchy of 7
classes a chain has at most 7 entries, so 7 steps always suffice). -/
def classChain (c : ExcClass) : List ExcClass :=
  classChainAux 7 c

/-- Python `issubclass c d` (a class is a subclass of itself and of every
class in its superclass chain); an `except d:` handler catches an exception
of class `c` exactly when `isSubclassOf c d`. -/
def isSubclassOf (c d : ExcClass) : Bool :=
  d ∈ classChain c

/-- A raised Python exception: its class, its message (`str(e)`), and —
for the `wrapped` form — the `original_error` argument carried by
`DocumentProcessingError.__init__`. -/
inductive PyExc where
  | plain (cls : ExcClass) (msg : String)
  | wrapped (cls : ExcClass) (msg : String) (original_error : PyExc)
deriving DecidableEq, Repr

/-- The class of a raised exception. -/
def PyExc.cls : PyExc → ExcClass
  | .plain c _ => c
  | .wrapped c _ _ => c

/-- `str(e)`: the message an exception was constructed with. -/
def PyExc.msg : PyExc → String
  | .plain _ m => m
  | .wrapped _ m _ => m

/-- The `original_error` attribute (`none` when absent). -/
def PyExc.original : PyExc → Option PyExc
  | .plain _ _ => none
  | .wrapped _ _ o => some o

/-- `TextProcessor.clean_text` including the `None` check. -/
def clean_textChecked (text : Option (List Char)) :
    Except PyExc (List Char) :=
  match text with
  | none => .error (.plain .textProcessingError "Text cannot be None")
  | some l => .ok (clean_text l)

/-- `TextProcessor.split_text` including the `None` check. -/
def split_textChecked (chunk_size chunk_overlap : Nat)
    (text : Option (List Char)) : Except PyExc (List Chunk) :=
  match text with
  | none => .error (.plain .chunkingError "Text cannot be None")
  | some l => .ok (split_text chunk_size chunk_overlap l)

/-- `TextProcessor.extract_metadata` including the `None` check. -/
def extract_metadataChecked (text : Option (List Char)) :
    Except PyExc Metadata :=
  match text with
  | none => .error (.plain .metadataExtractionError "Text cannot be None")
  | some l => .ok (extract_metadata l)

/-- A chunk dictionary after `process_document` has run: the `embedding`
key is present exactly when `embedding = some v`.  Vectors are kept
abstract in the element type `α`. -/
structure EChunk (α : Type) where
  text : List Char
  start : Nat
  «end» : Nat
  index : Nat
  embedding : Option α
deriving DecidableEq, Repr

/-- A chunk as returned by `split_text` (no `embedding` key yet). -/
def Chunk.toEChunk {α : Type} (c : Chunk) (e : Option α) : EChunk α :=
  ⟨c.text, c.start, c.«end», c.index, e⟩

/-- The `for chunk, embedding in zip(chunks, embeddings)` loop of
`process_document`: the first `min` of the two lengths chunks get an
embedding assigned; any remaining chunks are returned unchanged (without an
`embedding` key), and any surplus embeddings are dropped. -/
def attachEmbeddings {α : Type} : List Chunk → List α → List (EChunk α)
  | [], _ => []
  | c :: cs, [] => c.toEChunk none :: attachEmbeddings cs []
  | c :: cs, v :: vs => c.toEChunk (some v) :: attachEmbeddings cs vs

/-- `DocumentService.process_document`: split the text, embed the chunk
texts through the injected embedding capability `embed`, zip the embeddings
onto the chunks; any exception escaping the body is re-raised as a
`DocumentProcessingError` with message `"Failed to process document: " ++
str(e)` and `original_error = e`. -/
def process_document {α : Type} (chunk_size chunk_overlap : Nat)
    (text : Option (List Char))
    (embed : List (List Char) → Except PyExc (List α)) :
    Except PyExc (List (EChunk α)) :=
  let body : Except PyExc (List (EChunk α)) :=
    match split_textChecked chunk_size chunk_overlap text with
    | .error e => .error e
    | .ok chunks =>
      match embed (chunks.map Chunk.text) with
      | .error e => .error e
      | .ok embeddings => .ok (attachEmbeddings chunks embeddings)
  match body with
  | .ok r => .ok r
  | .error e =>
    .error (.wrapped .documentProcessingError
      ("Failed to process document: " ++ e.msg) e)

/-- Fuel-indexed transcription of the `while start < len(text)` loop of
`split_text`: one unit of fuel per loop iteration, `none` when the fuel runs
out before the loop exits.  Used to state that the loop terminates within a
bounded number of iterations. -/
def splitLoopFuel (chunk_size chunk_overlap : Nat) (text : List Char) :
    Nat → Nat → Nat → Option (List Chunk)
  | fuel, start, index =>
    if start < text.length then
      match fuel with
      | 0 => none
      | f + 1 =>
        let e := computeEnd chunk_size text start
        let chunk_text := pyStrip (pySlice text start e)
        let emitted : List Chunk :=
          if chunk_text.isEmpty then [] else [⟨chunk_text, start, e, index⟩]
        if e = text.length then some emitted
        else
          (splitLoopFuel chunk_size chunk_overlap text f
            (max (start + 1) (e - chunk_overlap))
            (if chunk_text.isEmpty then index else index + 1)).map
            (emitted ++ ·)
    else some []

/-- The test input `"This is a test. " * 50` (800 characters). -/
def testText800 : List Char :=
  List.flatten (List.replicate 50 "This is a test. ".data)

/-- `true` when `c` and the first character of the list are not both
whitespace. -/
def noWsPair (c : Char) : List Char → Bool
  | [] => true
  | d :: _ => !(isPySpace c && isPySpace d)

/-- The strings left fixed by whitespace collapsing: every whitespace
character is a plain `' '` and no two adjacent characters are both
whitespace. -/
def collapsedB : List Char → Bool
  | [] => true
  | c :: cs => (!(isPySpace c) || (c = ' ')) && noWsPair c cs && collapsedB cs

/-! ## Helper lemmas about stripping, slicing and searching -/

theorem pyStrip_sublist (l : List Char) : List.Sublist (pyStrip l) l :=
  ((List.rdropWhile_prefix isPySpace (l.dropWhile isPySpace)).sublist).trans
    (List.dropWhile_suffix isPySpace).sublist

theorem pyStrip_length_le (l : List Char) : (pyStrip l).length ≤ l.length :=
  (pyStrip_sublist l).length_le

theorem mem_of_mem_pyStrip {c : Char} {l : List Char} (h : c ∈ pyStrip l) :
    c ∈ l :=
  (pyStrip_sublist l).subset h

theorem pySlice_length_le (text : List Char) (s e : Nat) :
    (pySlice text s e).length ≤ e - s := by
  simp only [pySlice, List.length_take, List.length_drop]
  omega

theorem pySlice_length (text : List Char) (s e : Nat) :
    (pySlice text s e).length = min (e - s) (text.length - s) := by
  simp [pySlice, List.length_take, List.length_drop]

theorem lastIdx_cases (ch : Char) (l : List Char) :
    lastIdx ch l = -1 ∨
    (0 ≤ lastIdx ch l ∧ lastIdx ch l < (l.length : Int)) := by
  induction l with
  | nil => exact Or.inl rfl
  | cons c cs ih =>
    simp only [lastIdx, List.length_cons]
    split_ifs with h0 hc
    · rcases ih with h | ⟨_, hl⟩
      · rw [h] at h0; omega
      · right; push_cast; omega
    · right; push_cast; exact ⟨trivial, by omega⟩
    · left; rfl

theorem rfind_spec (text : List Char) (ch : Char) (s e : Nat) :
    rfind text ch s e = -1 ∨
    ∃ k : Nat, rfind text ch s e = (k : Int) ∧ s ≤ k ∧ k < e ∧
      k < text.length := by
  rw [rfind]
  rcases lastIdx_cases ch (pySlice text s e) with h | ⟨h0, hl⟩
  · left; rw [h]; norm_num
  · right
    rw [pySlice_length] at hl
    rw [if_neg (by omega)]
    refine ⟨s + (lastIdx ch (pySlice text s e)).toNat, ?_, ?_, ?_, ?_⟩ <;>
      omega

theorem computeEnd_bounds (chunk_size : Nat) (text : List Char) (start : Nat)
    (h : start ≤ text.length) :
    start ≤ computeEnd chunk_size text start ∧
    computeEnd chunk_size text start ≤ text.length ∧
    computeEnd chunk_size text start ≤ start + chunk_size := by
  rw [computeEnd]
  simp only []
  split_ifs with hlt hb
  · rcases rfind_spec text ' ' start (min (start + chunk_size) text.length)
      with ha | ⟨k, hk, hks, hke, hkl⟩ <;>
      rcases rfind_spec text '\n' start (min (start + chunk_size) text.length)
        with hn | ⟨k2, hk2, hk2s, hk2e, hk2l⟩
    · rw [ha, hn] at hb
      rcases hb with hb | hb <;> omega
    · rw [ha, hk2]; omega
    · rw [hk, hn]; omega
    · rw [hk, hk2]; omega
  · omega
  · omega

/-! ## Lemmas about the chunking loop -/

theorem splitLoop_forall_bounds (chunk_size chunk_overlap : Nat)
    (text : List Char) : ∀ start index,
    ∀ c ∈ splitLoop chunk_size chunk_overlap text start index,
      c.start ≤ c.«end» ∧ c.«end» ≤ text.length ∧
      c.text.length ≤ chunk_size := by
  intro start index
  induction start, index using splitLoop.induct chunk_size chunk_overlap text with
  | case1 start index hlt e he =>
    intro c hc
    rw [splitLoop, if_pos hlt] at hc
    dsimp only at hc
    have he' : computeEnd chunk_size text start = text.length := he
    rw [if_pos he'] at hc
    split_ifs at hc with hemp
    · simp at hc
    · rw [List.mem_singleton] at hc
      subst hc
      have hb := computeEnd_bounds chunk_size text start (le_of_lt hlt)
      have h1 := pyStrip_length_le
        (pySlice text start (computeEnd chunk_size text start))
      have h2 := pySlice_length_le text start (computeEnd chunk_size text start)
      refine ⟨hb.1, hb.2.1, ?_⟩
      show (pyStrip (pySlice text start
        (computeEnd chunk_size text start))).length ≤ chunk_size
      omega
  | case2 start index hlt e chunk_text hne ih =>
    intro c hc
    rw [splitLoop, if_pos hlt] at hc
    dsimp only at hc
    have hne' : ¬ computeEnd chunk_size text start = text.length := hne
    rw [if_neg hne'] at hc
    rw [List.mem_append] at hc
    rcases hc with hc | hc
    · split_ifs at hc with hemp
      · simp at hc
      · rw [List.mem_singleton] at hc
        subst hc
        have hb := computeEnd_bounds chunk_size text start (le_of_lt hlt)
        have h1 := pyStrip_length_le
          (pySlice text start (computeEnd chunk_size text start))
        have h2 := pySlice_length_le text start
          (computeEnd chunk_size text start)
        refine ⟨hb.1, hb.2.1, ?_⟩
        show (pyStrip (pySlice text start
          (computeEnd chunk_size text start))).length ≤ chunk_size
        omega
    · exact ih c hc
  | case3 start index hge =>
    intro c hc
    rw [splitLoop, if_neg hge] at hc
    simp at hc

theorem splitLoop_map_index (chunk_size chunk_overlap : Nat)
    (text : List Char) : ∀ start index,
    (splitLoop chunk_size chunk_overlap text start index).map Chunk.index =
      List.range' index
        (splitLoop chunk_size chunk_overlap text start index).length := by
  intro start index
  induction start, index using splitLoop.induct chunk_size chunk_overlap text with
  | case1 start index hlt e he =>
    rw [splitLoop, if_pos hlt]
    dsimp only
    have he' : computeEnd chunk_size text start = text.length := he
    rw [if_pos he']
    split_ifs with hemp
    · rfl
    · rfl
  | case2 start index hlt e chunk_text hne ih =>
    rw [splitLoop, if_pos hlt]
    dsimp only
    have hne' : ¬ computeEnd chunk_size text start = text.length := hne
    rw [if_neg hne']
    have hct : chunk_text =
        pyStrip (pySlice text start (computeEnd chunk_size text start)) := rfl
    rw [hct] at ih
    split_ifs with hemp
    · rw [dif_pos hemp] at ih
      simpa using ih
    · rw [dif_neg hemp] at ih
      simp only [List.singleton_append, List.map_cons, List.length_cons]
      rw [ih, List.range'_succ]
  | case3 start index hge =>
    rw [splitLoop, if_neg hge]
    rfl

theorem splitLoopFuel_eq (chunk_size chunk_overlap : Nat)
    (text : List Char) : ∀ fuel start index,
    text.length - start < fuel →
    splitLoopFuel chunk_size chunk_overlap text fuel start index =
      some (splitLoop chunk_size chunk_overlap text start index) := by
  intro fuel
  induction fuel with
  | zero => intro start index h; omega
  | succ f ih =>
    intro start index h
    by_cases hlt : start < text.length
    · rw [splitLoopFuel, splitLoop]
      simp only [if_pos hlt]
      by_cases he : computeEnd chunk_size text start = text.length
      · simp only [if_pos he]
      · simp only [if_neg he]
        rw [ih]
        · rfl
        · have := Nat.le_max_left (start + 1)
            (computeEnd chunk_size text start - chunk_overlap)
          omega
    · rw [splitLoopFuel, splitLoop]
      simp only [if_neg hlt]

/-! ## Lemmas about the orchestrator -/

theorem attachEmbeddings_isSome {α : Type} :
    ∀ (chunks : List Chunk) (vs : List α), chunks.length ≤ vs.length →
    ∀ c ∈ attachEmbeddings chunks vs, c.embedding.isSome = true := by
  intro chunks
  induction chunks with
  | nil =>
    intro vs _ c hc
    simp [attachEmbeddings] at hc
  | cons ch cs ih =>
    intro vs hlen c hc
    cases vs with
    | nil => simp at hlen
    | cons v vs' =>
      rw [attachEmbeddings] at hc
      rcases List.mem_cons.mp hc with hc | hc
      · subst hc; rfl
      · exact ih vs' (by simpa using hlen) c hc

theorem process_document_none {α : Type} (chunk_size chunk_overlap : Nat)
    (embed : List (List Char) → Except PyExc (List α)) :
    process_document chunk_size chunk_overlap none embed =
      .error (.wrapped .documentProcessingError
        "Failed to process document: Text cannot be None"
        (.plain .chunkingError "Text cannot be None")) := rfl

theorem process_document_some_ok {α : Type} (chunk_size chunk_overlap : Nat)
    (l : List Char) (embed : List (List Char) → Except PyExc (List α))
    (es : List α)
    (h : embed ((split_text chunk_size chunk_overlap l).map Chunk.text) =
      .ok es) :
    process_document chunk_size chunk_overlap (some l) embed =
      .ok (attachEmbeddings (split_text chunk_size chunk_overlap l) es) := by
  rw [process_document]
  dsimp only [split_textChecked]
  rw [h]

theorem process_document_some_error {α : Type} (chunk_size chunk_overlap : Nat)
    (l : List Char) (embed : List (List Char) → Except PyExc (List α))
    (e : PyExc)
    (h : embed ((split_text chunk_size chunk_overlap l).map Chunk.text) =
      .error e) :
    process_document chunk_size chunk_overlap (some l) embed =
      .error (.wrapped .documentProcessingError
        ("Failed to process document: " ++ e.msg) e) := by
  rw [process_document]
  dsimp only [split_textChecked]
  rw [h]

/-! ## Lemmas about cleaning -/

theorem dropWhile_head_false (p : Char → Bool) :
    ∀ (cs : List Char) (d : Char) (ds : List Char),
    cs.dropWhile p = d :: ds → p d = false := by
  intro cs
  induction cs with
  | nil => intro d ds h; simp [List.dropWhile] at h
  | cons a as ih =>
    intro d ds h
    rw [List.dropWhile_cons] at h
    split_ifs at h with ha
    · exact ih d ds h
    · cases h
      simpa using ha

theorem replaceZeroWidth_eq_self {l : List Char}
    (h : ∀ c ∈ l, isZeroWidth c = false) : replaceZeroWidth l = l := by
  induction l with
  | nil => rfl
  | cons c cs ih =>
    have hc : isZeroWidth c = false := h c (List.mem_cons_self c cs)
    have ih' := ih (fun d hd => h d (List.mem_cons_of_mem c hd))
    rw [replaceZeroWidth, List.map_cons] at *
    rw [hc]
    simp only [Bool.false_eq_true, if_false, List.cons.injEq, true_and]
    exact ih'

theorem mem_collapseWs {c : Char} :
    ∀ l : List Char, c ∈ collapseWs l → c = ' ' ∨ c ∈ l := by
  intro l
  induction l using collapseWs.induct with
  | case1 => intro h; simp [collapseWs] at h
  | case2 d hd =>
    intro h
    rw [collapseWs, if_pos hd] at h
    exact Or.inl (List.mem_singleton.mp h)
  | case3 d hd =>
    intro h
    rw [collapseWs, if_neg hd] at h
    exact Or.inr h
  | case4 d e cs hd he ih =>
    intro h
    rw [collapseWs, if_pos hd, if_pos he] at h
    rcases ih h with h' | h'
    · exact Or.inl h'
    · exact Or.inr (List.mem_cons_of_mem d h')
  | case5 d e cs hd he ih =>
    intro h
    rw [collapseWs, if_pos hd, if_neg he] at h
    rcases List.mem_cons.mp h with h' | h'
    · exact Or.inl h'
    · rcases ih h' with h'' | h''
      · exact Or.inl h''
      · exact Or.inr (List.mem_cons_of_mem d h'')
  | case6 d e cs hd ih =>
    intro h
    rw [collapseWs, if_neg hd] at h
    rcases List.mem_cons.mp h with h' | h'
    · exact Or.inr (h' ▸ List.mem_cons_self d (e :: cs))
    · rcases ih h' with h'' | h''
      · exact Or.inl h''
      · exact Or.inr (List.mem_cons_of_mem d h'')

theorem collapseWs_head_of_not_space (e : Char) (cs : List Char)
    (he : isPySpace e = false) :
    (collapseWs (e :: cs)).head? = some e := by
  cases cs with
  | nil => rw [collapseWs, if_neg (by simp [he])]; rfl
  | cons f fs => rw [collapseWs, if_neg (by simp [he])]; rfl

theorem collapsedB_collapseWs (l : List Char) :
    collapsedB (collapseWs l) = true := by
  induction l using collapseWs.induct with
  | case1 => rfl
  | case2 d hd => rw [collapseWs, if_pos hd]; decide
  | case3 d hd =>
    rw [collapseWs, if_neg hd]
    simp [collapsedB, noWsPair, hd]
  | case4 d e cs hd he ih =>
    rw [collapseWs, if_pos hd, if_pos he]
    exact ih
  | case5 d e cs hd he ih =>
    rw [collapseWs, if_pos hd, if_neg he]
    rw [collapsedB]
    simp only [ih, Bool.and_true, Bool.and_eq_true]
    have he' : isPySpace e = false := by simpa using he
    refine ⟨by decide, ?_⟩
    have hh := collapseWs_head_of_not_space e cs he'
    cases hrest : collapseWs (e :: cs) with
    | nil => rfl
    | cons g gs =>
      rw [hrest] at hh
      simp only [List.head?_cons, Option.some.injEq] at hh
      rw [noWsPair, hh]
      simp [he']
  | case6 d e cs hd ih =>
    rw [collapseWs, if_neg hd, collapsedB]
    simp only [ih, Bool.and_true, Bool.and_eq_true]
    constructor
    · simp [hd]
    · cases collapseWs (e :: cs) with
      | nil => rfl
      | cons g gs =>
        rw [noWsPair]
        simp [hd]

theorem collapsedB_tail {c : Char} {l : List Char}
    (h : collapsedB (c :: l) = true) : collapsedB l = true := by
  rw [collapsedB] at h
  simp only [Bool.and_eq_true] at h
  exact h.2

theorem collapsedB_dropWhile (p : Char → Bool) :
    ∀ l : List Char, collapsedB l = true → collapsedB (l.dropWhile p) = true := by
  intro l
  induction l with
  | nil => intro h; exact h
  | cons c cs ih =>
    intro h
    rw [List.dropWhile_cons]
    split_ifs with hc
    · exact ih (collapsedB_tail h)
    · exact h

theorem collapsedB_append_left :
    ∀ l₁ l₂ : List Char, collapsedB (l₁ ++ l₂) = true → collapsedB l₁ = true := by
  intro l₁
  induction l₁ with
  | nil => intro _ _; rfl
  | cons c cs ih =>
    intro l₂ h
    rw [List.cons_append, collapsedB] at h
    simp only [Bool.and_eq_true] at h
    obtain ⟨⟨h1, h2⟩, h3⟩ := h
    rw [collapsedB]
    simp only [Bool.and_eq_true]
    refine ⟨⟨h1, ?_⟩, ih l₂ h3⟩
    cases cs with
    | nil => rfl
    | cons d ds =>
      rw [List.cons_append, noWsPair] at h2
      rw [noWsPair]
      exact h2

theorem collapsedB_pyStrip {l : List Char} (h : collapsedB l = true) :
    collapsedB (pyStrip l) = true := by
  obtain ⟨t, ht⟩ :=
    List.rdropWhile_prefix isPySpace (l.dropWhile isPySpace)
  have h1 := collapsedB_dropWhile isPySpace l h
  rw [← ht] at h1
  exact collapsedB_append_left _ _ h1

theorem collapseWs_eq_self :
    ∀ l : List Char, collapsedB l = true → collapseWs l = l := by
  intro l
  induction l using collapseWs.induct with
  | case1 => intro _; rfl
  | case2 d hd =>
    intro h
    rw [collapsedB] at h
    simp only [Bool.and_eq_true] at h
    obtain ⟨⟨h1, _⟩, _⟩ := h
    have h1' : isPySpace d = false ∨ d = ' ' := by simpa using h1
    rw [collapseWs, if_pos hd]
    rcases h1' with h' | h'
    · rw [hd] at h'; simp at h'
    · rw [h']
  | case3 d hd =>
    intro _
    rw [collapseWs, if_neg hd]
  | case4 d e cs hd he ih =>
    intro h
    rw [collapsedB] at h
    simp only [Bool.and_eq_true] at h
    obtain ⟨⟨_, h2⟩, _⟩ := h
    rw [noWsPair, hd, he] at h2
    simp at h2
  | case5 d e cs hd he ih =>
    intro h
    rw [collapsedB] at h
    simp only [Bool.and_eq_true] at h
    obtain ⟨⟨h1, _⟩, h3⟩ := h
    have h1' : isPySpace d = false ∨ d = ' ' := by simpa using h1
    rw [collapseWs, if_pos hd, if_neg he, ih h3]
    rcases h1' with h' | h'
    · rw [hd] at h'; simp at h'
    · rw [h']
  | case6 d e cs hd ih =>
    intro h
    rw [collapsedB] at h
    simp only [Bool.and_eq_true] at h
    obtain ⟨⟨_, _⟩, h3⟩ := h
    rw [collapseWs, if_neg hd, ih h3]

theorem pyStrip_idempotent (l : List Char) : pyStrip (pyStrip l) = pyStrip l := by
  have h1 : List.dropWhile isPySpace (pyStrip l) = pyStrip l := by
    cases hY : pyStrip l with
    | nil => rfl
    | cons d ds =>
      have hpref := List.rdropWhile_prefix isPySpace (l.dropWhile isPySpace)
      rw [pyStrip] at hY
      rw [hY] at hpref
      obtain ⟨t, ht⟩ := hpref
      have hd : isPySpace d = false :=
        dropWhile_head_false isPySpace l d (ds ++ t) (by rw [← ht]; simp)
      rw [List.dropWhile_cons, if_neg (by simp [hd])]
  calc pyStrip (pyStrip l)
      = List.rdropWhile isPySpace (List.dropWhile isPySpace (pyStrip l)) := rfl
    _ = List.rdropWhile isPySpace (pyStrip l) := by rw [h1]
    _ = List.rdropWhile isPySpace
          (List.rdropWhile isPySpace (l.dropWhile isPySpace)) := rfl
    _ = List.rdropWhile isPySpace (l.dropWhile isPySpace) :=
        List.rdropWhile_idempotent _ _
    _ = pyStrip l := rfl

theorem clean_text_eq_of_no_zero_width {l : List Char}
    (h : ∀ c ∈ l, isZeroWidth c = false) :
    clean_text l = pyStrip (collapseWs l) := by
  rw [clean_text, replaceZeroWidth_eq_self]
  intro c hc
  rcases mem_collapseWs l hc with hc' | hc'
  · rw [hc']; decide
  · exact h c hc'

theorem clean_text_no_zero_width_aux (l : List Char) :
    ∀ c ∈ clean_text l, isZeroWidth c = false := by
  intro c hc
  rw [clean_text] at hc
  have h1 := mem_of_mem_pyStrip hc
  rw [replaceZeroWidth] at h1
  obtain ⟨d, _, hfd⟩ := List.mem_map.mp h1
  by_cases hz : isZeroWidth d = true
  · rw [if_pos hz] at hfd
    rw [← hfd]
    decide
  · rw [if_neg hz] at hfd
    rw [← hfd]
    simpa using hz

/-! ## Concrete evaluation helpers -/

/-- Transport a property of `split_text` in the general (loop) case through
the fuelled loop, so that concrete instances can be evaluated on the
structurally recursive `splitLoopFuel`. -/
theorem split_text_prop_of_fuel (chunk_size chunk_overlap : Nat)
    (l : List Char) (P : List Chunk → Prop)
    (h1 : ¬ (pyStrip l).isEmpty = true)
    (h2 : ¬ (pyStrip l).length ≤ chunk_size)
    (fuel : Nat) (hf : (pyStrip l).length < fuel)
    (hP : ∀ L, splitLoopFuel chunk_size chunk_overlap (pyStrip l) fuel 0 0 =
      some L → P L) :
    P (split_text chunk_size chunk_overlap l) := by
  rw [split_text]
  rw [if_neg h1, if_neg h2]
  exact hP _ (splitLoopFuel_eq _ _ _ fuel 0 0 (by omega))

theorem split_text_aaaa_bbbb :
    split_text 5 1 "aaaa bbbb".data =
      [⟨"aaaa".data, 0, 5, 0⟩, ⟨"bbbb".data, 4, 9, 1⟩] := by
  have h2 := splitLoopFuel_eq 5 1 (pyStrip "aaaa bbbb".data) 10 0 0 (by decide)
  have h1 : splitLoopFuel 5 1 (pyStrip "aaaa bbbb".data) 10 0 0 =
      some [⟨"aaaa".data, 0, 5, 0⟩, ⟨"bbbb".data, 4, 9, 1⟩] := by decide
  rw [h1] at h2
  rw [split_text]
  dsimp only
  rw [if_neg (by decide), if_neg (by decide)]
  exact (Option.some.inj h2).symm

/-! ## Claim theorems -/

/-- C1 (counterexample): `process_document` performs no length check: with an
embedding capability that returns one vector for a text that splits into two
chunks, it returns normally with the first chunk carrying an embedding and
the second chunk carrying none — a partially attached list. -/
theorem process_document_partial_attachment :
    (process_document 5 1 (some "aaaa bbbb".data)
        (fun _ => Except.ok ([[7]] : List (List Nat)))).map
      (fun r => r.map (fun c => c.embedding.isSome)) =
    Except.ok [true, false] := by
  rw [process_document_some_ok 5 1 "aaaa bbbb".data _ [[7]] rfl,
    split_text_aaaa_bbbb]
  rfl

/-- C1 (amended): `process_document` zips embeddings onto chunks with no
length check.  When the embedding capability returns exactly as many vectors
as there are chunks, the call returns normally and every returned chunk has
its embedding populated; when it returns fewer vectors, the call still
returns normally but only the first `vectors.length` chunks carry an
embedding (see the counterexample). -/
theorem process_document_full_attachment {α : Type}
    (chunk_size chunk_overlap : Nat) (l : List Char)
    (embed : List (List Char) → Except PyExc (List α)) (es : List α)
    (hok : embed ((split_text chunk_size chunk_overlap l).map Chunk.text) =
      .ok es)
    (hlen : es.length = (split_text chunk_size chunk_overlap l).length) :
    process_document chunk_size chunk_overlap (some l) embed =
      .ok (attachEmbeddings (split_text chunk_size chunk_overlap l) es) ∧
    ∀ c ∈ attachEmbeddings (split_text chunk_size chunk_overlap l) es,
      c.embedding.isSome = true :=
  ⟨process_document_some_ok _ _ _ _ _ hok,
   attachEmbeddings_isSome _ es (by omega)⟩

/-- Witness for C1 (amended) at a concrete two-chunk input with two
vectors. -/
theorem process_document_full_attachment_witness :
    process_document 5 1 (some "aaaa bbbb".data)
        (fun _ => Except.ok ([[7], [8]] : List (List Nat))) =
      .ok (attachEmbeddings (split_text 5 1 "aaaa bbbb".data) [[7], [8]]) :=
  (process_document_full_attachment 5 1 "aaaa bbbb".data _ [[7], [8]] rfl
    (by rw [split_text_aaaa_bbbb]; rfl)).1

/-- C2: when the input text is `None` (the only way chunking raises) or the
embedding capability raises, `process_document` raises a
`DocumentProcessingError` whose message is `"Failed to process document: "`
followed by the original message and whose `original_error` is the original
exception; when neither raises, it returns a chunk list. -/
theorem process_document_error_policy {α : Type}
    (chunk_size chunk_overlap : Nat)
    (embed : List (List Char) → Except PyExc (List α)) :
    (process_document chunk_size chunk_overlap none embed =
      .error (.wrapped .documentProcessingError
        "Failed to process document: Text cannot be None"
        (.plain .chunkingError "Text cannot be None"))) ∧
    (∀ (l : List Char) (e : PyExc),
      embed ((split_text chunk_size chunk_overlap l).map Chunk.text) =
        .error e →
      process_document chunk_size chunk_overlap (some l) embed =
        .error (.wrapped .documentProcessingError
          ("Failed to process document: " ++ e.msg) e)) ∧
    (∀ (l : List Char) (es : List α),
      embed ((split_text chunk_size chunk_overlap l).map Chunk.text) =
        .ok es →
      process_document chunk_size chunk_overlap (some l) embed =
        .ok (attachEmbeddings (split_text chunk_size chunk_overlap l) es)) :=
  ⟨process_document_none _ _ _,
   fun l e he => process_document_some_error _ _ l embed e he,
   fun l es hok => process_document_some_ok _ _ l embed es hok⟩

/-- Witness for C2 at a concrete input with a failing embedding stub. -/
theorem process_document_error_policy_witness :
    process_document 3 1 (some "ab".data)
        (fun _ => (Except.error (.plain .exception "boom") :
          Except PyExc (List (List Nat)))) =
      .error (.wrapped .documentProcessingError
        "Failed to process document: boom" (.plain .exception "boom")) :=
  (process_document_error_policy 3 1 _).2.1 "ab".data
    (.plain .exception "boom") rfl

/-- C3: the chunk list of `split_text` carries indices `0, 1, ..., N-1` in
emission order: its image under `Chunk.index` is `List.range N`. -/
theorem split_text_indices (l : List Char) (chunk_size chunk_overlap : Nat)
    (_hcs : 0 < chunk_size) (_hov : chunk_overlap < chunk_size) :
    (split_text chunk_size chunk_overlap l).map Chunk.index =
      List.range (split_text chunk_size chunk_overlap l).length := by
  rw [split_text]
  split_ifs with h1 h2
  · rfl
  · rfl
  · rw [List.range_eq_range']
    exact splitLoop_map_index chunk_size chunk_overlap (pyStrip l) 0 0

/-- Witness for C3 at a concrete input. -/
theorem split_text_indices_witness :
    (split_text 3 1 "ab".data).map Chunk.index =
      List.range (split_text 3 1 "ab".data).length :=
  split_text_indices "ab".data 3 1 (by decide) (by decide)

/-- C4: every chunk of `split_text` satisfies `start ≤ end` and
`end ≤ len(trim(s))` (with `start, end : Nat`, so `0 ≤ start` holds by
construction); offsets are relative to the stripped text. -/
theorem split_text_offsets (l : List Char) (chunk_size chunk_overlap : Nat)
    (_hcs : 0 < chunk_size) (_hov : chunk_overlap < chunk_size) :
    ∀ c ∈ split_text chunk_size chunk_overlap l,
      c.start ≤ c.«end» ∧ c.«end» ≤ (pyStrip l).length := by
  intro c hc
  rw [split_text] at hc
  split_ifs at hc with h1 h2
  · rw [List.mem_singleton] at hc
    subst hc
    exact ⟨le_refl 0, Nat.zero_le _⟩
  · rw [List.mem_singleton] at hc
    subst hc
    exact ⟨Nat.zero_le _, le_refl _⟩
  · have hb := splitLoop_forall_bounds chunk_size chunk_overlap (pyStrip l)
      0 0 c hc
    exact ⟨hb.1, hb.2.1⟩

/-- Witness for C4 on the single chunk of a concrete small input. -/
theorem split_text_offsets_witness :
    (Chunk.mk "ab".data 0 2 0).start ≤ (Chunk.mk "ab".data 0 2 0).«end» ∧
    (Chunk.mk "ab".data 0 2 0).«end» ≤ (pyStrip "ab".data).length :=
  split_text_offsets "ab".data 3 1 (by decide) (by decide) _ (by decide)

/-- C5 (counterexample): `clean_text` is not idempotent.  In
`"a ​b"` the zero-width space survives the whitespace collapsing (it is
not `\s`) and is then replaced by a second space, so one pass yields
`"a  b"` while a second pass collapses the two spaces to one. -/
theorem clean_text_not_idempotent :
    clean_text (clean_text "a ​b".data) ≠ clean_text "a ​b".data := by
  decide

/-- C5 (amended): `clean_text` with the default patterns is idempotent on
every string that contains no zero-width character. -/
theorem clean_text_idempotent_no_zero_width (l : List Char)
    (h : ∀ c ∈ l, isZeroWidth c = false) :
    clean_text (clean_text l) = clean_text l := by
  have h1 : clean_text l = pyStrip (collapseWs l) :=
    clean_text_eq_of_no_zero_width h
  have hcol : collapsedB (pyStrip (collapseWs l)) = true :=
    collapsedB_pyStrip (collapsedB_collapseWs l)
  have hnz : ∀ c ∈ pyStrip (collapseWs l), isZeroWidth c = false := by
    intro c hc
    rcases mem_collapseWs l (mem_of_mem_pyStrip hc) with h' | h'
    · rw [h']; decide
    · exact h c h'
  rw [h1, clean_text, collapseWs_eq_self _ hcol, replaceZeroWidth_eq_self hnz]
  exact pyStrip_idempotent _

/-- Witness for C5 (amended) at a concrete zero-width-free input. -/
theorem clean_text_idempotent_no_zero_width_witness :
    clean_text (clean_text "a  b".data) = clean_text "a  b".data :=
  clean_text_idempotent_no_zero_width "a  b".data (by decide)

/-- C6 (counterexample): a zero-width character does leave a residual
character behind: `clean_text "a​b"` is `"a b"`, not the `"ab"` that
removal would produce — the zero-width character is converted into a
space. -/
theorem clean_text_zero_width_residual :
    clean_text "a​b".data = "a b".data ∧ clean_text "a​b".data ≠ "ab".data :=
  ⟨by decide, by decide⟩

/-- C6 (amended): no zero-width character appears in any `clean_text`
output, but a zero-width character is replaced by a space character, not
removed. -/
theorem clean_text_strips_zero_width (l : List Char) :
    (∀ c ∈ clean_text l, isZeroWidth c = false) ∧
    clean_text "a​b".data = "a b".data :=
  ⟨clean_text_no_zero_width_aux l, by decide⟩

/-- Witness for C6 (amended) on a concrete character of a concrete
output. -/
theorem clean_text_strips_zero_width_witness :
    isZeroWidth 'x' = false :=
  (clean_text_strips_zero_width "xa".data).1 'x' (by decide)

/-- C7 (counterexample): on the spec's example string the `length` field is
38, not 39 (the string has 38 characters). -/
theorem extract_metadata_example_length :
    (extract_metadata "This is a test.\n\nThis is another test.".data).length
      = 38 ∧
    (extract_metadata "This is a test.\n\nThis is another test.".data).length
      ≠ 39 :=
  ⟨by decide, by decide⟩

/-- C7 (amended): `extract_metadata` on the example string returns
`length = 38`, `word_count = 8`, `line_count = 3`,
`has_paragraphs = true`. -/
theorem extract_metadata_example :
    extract_metadata "This is a test.\n\nThis is another test.".data =
      ⟨38, 8, 3, true⟩ := by
  decide

set_option maxRecDepth 100000 in
/-- C8: every chunk text of `split_text` has length at most `chunk_size`;
in particular the 800-character repeated test input at
`chunk_size = 100, chunk_overlap = 20` yields more than one chunk, all of
text length at most 100. -/
theorem split_text_chunk_size_bound :
    (∀ (l : List Char) (chunk_size chunk_overlap : Nat), 0 < chunk_size →
      chunk_overlap < chunk_size →
      ∀ c ∈ split_text chunk_size chunk_overlap l,
        c.text.length ≤ chunk_size) ∧
    1 < (split_text 100 20 testText800).length ∧
    ∀ c ∈ split_text 100 20 testText800, c.text.length ≤ 100 := by
  constructor
  · intro l chunk_size chunk_overlap _hcs _hov c hc
    rw [split_text] at hc
    split_ifs at hc with h1 h2
    · rw [List.mem_singleton] at hc
      subst hc
      exact Nat.zero_le _
    · rw [List.mem_singleton] at hc
      subst hc
      exact h2
    · exact (splitLoop_forall_bounds chunk_size chunk_overlap (pyStrip l)
        0 0 c hc).2.2
  · apply split_text_prop_of_fuel 100 20 testText800
      (fun L => 1 < L.length ∧ ∀ c ∈ L, c.text.length ≤ 100)
      (by decide) (by decide) 800 (by decide)
    intro L hL
    have hB : Option.all
        (fun L => decide (1 < L.length) &&
          L.all (fun c => decide (c.text.length ≤ 100)))
        (splitLoopFuel 100 20 (pyStrip testText800) 800 0 0) = true := by
      decide
    rw [hL] at hB
    simp only [Option.all_some, Bool.and_eq_true, decide_eq_true_eq,
      List.all_eq_true] at hB
    exact ⟨hB.1, fun c hc => hB.2 c hc⟩

/-- Witness for C8 on the single chunk of a concrete small input. -/
theorem split_text_chunk_size_bound_witness :
    (Chunk.mk "ab".data 0 2 0).text.length ≤ 3 :=
  split_text_chunk_size_bound.1 "ab".data 3 1 (by decide) (by decide) _
    (by decide)

/-- C9: the cursor advance `max (start + 1) (end - chunk_overlap)` strictly
increases `start`, and the fuelled transcription of the `split_text` loop
finishes within `length + 1` iterations, returning exactly the chunks of
the loop — for every text, every `chunk_size > 0` and every
`chunk_overlap`, including overlaps that would otherwise stall the
cursor. -/
theorem split_text_terminates (l : List Char)
    (chunk_size chunk_overlap : Nat) (_hcs : 0 < chunk_size) :
    (∀ start e : Nat, start < max (start + 1) (e - chunk_overlap)) ∧
    splitLoopFuel chunk_size chunk_overlap (pyStrip l)
        ((pyStrip l).length + 1) 0 0 =
      some (splitLoop chunk_size chunk_overlap (pyStrip l) 0 0) := by
  constructor
  · intro s e
    have := Nat.le_max_left (s + 1) (e - chunk_overlap)
    omega
  · exact splitLoopFuel_eq _ _ _ _ 0 0 (by omega)

/-- Witness for C9 at a concrete input whose overlap exceeds the chunk
size. -/
theorem split_text_terminates_witness :
    splitLoopFuel 3 5 (pyStrip "hello world".data)
        ((pyStrip "hello world".data).length + 1) 0 0 =
      some (splitLoop 3 5 (pyStrip "hello world".data) 0 0) :=
  (split_text_terminates "hello world".data 3 5 (by decide)).2

/-- C10: the three processor error classes are subclasses of
`DocumentProcessingError`, so an `except DocumentProcessingError` handler
catches all of them, and the errors the three operations raise on absent
input are already of those classes. -/
theorem exception_kinds_subsumed :
    ([ExcClass.textProcessingError, .chunkingError,
        .metadataExtractionError].all
      (fun k => isSubclassOf k .documentProcessingError) = true) ∧
    (clean_textChecked none =
      .error (.plain .textProcessingError "Text cannot be None") ∧
     isSubclassOf .textProcessingError .documentProcessingError = true) ∧
    (∀ chunk_size chunk_overlap : Nat,
      split_textChecked chunk_size chunk_overlap none =
        .error (.plain .chunkingError "Text cannot be None")) ∧
    isSubclassOf .chunkingError .documentProcessingError = true ∧
    (extract_metadataChecked none =
      .error (.plain .metadataExtractionError "Text cannot be None") ∧
     isSubclassOf .metadataExtractionError .documentProcessingError = true) :=
  ⟨by decide, ⟨rfl, by decide⟩, fun _ _ => rfl, by decide, rfl, by decide⟩


end AifRag
